import Mathlib

/-!
Verification of the `pydantic_monty` host-side layer:
`python/pydantic_monty/os_access.py` (the in-memory `OSAccess` virtual
filesystem) and `python/pydantic_monty/__init__.py` (`run_monty_async`).

Paths (`PurePosixPath`) are embedded as their `.parts` list: the absolute
path `/a/b.txt` is `["/", "a", "b.txt"]`.  Python `dict`s (ordered, with
unique keys) are embedded as association lists; mutation is embedded as
explicit state passing.  Exception raising is embedded with `Except`;
an `Except.error` result leaves the pre-state untouched, which matches
the source because every raise there happens before any mutation.
-/

namespace Monty

/-- A `PurePosixPath`, represented by its `.parts` tuple. -/
abbrev Pth := List String

/-- The parts of `PurePosixPath(p).name`: the final component, or the empty
string for the root path `/` and for the empty (`.`) path. -/
def pathName (p : Pth) : String :=
  if p = ["/"] then "" else p.getLastD ""

/-- The parts of `PurePosixPath(p).parent`: drop the last component; the
parent of the root is the root, the parent of a single relative component
is `.` (empty parts). -/
def pathParent (p : Pth) : Pth :=
  if p.length ≤ 1 then (if p = ["/"] then ["/"] else []) else p.dropLast

/-- Python `p.is_absolute()` for a PurePosixPath: first part is `/`. -/
def pathIsAbsolute (p : Pth) : Bool :=
  p.headD "" = "/"

/-- `PurePosixPath.relative_to`: strip `base` from the front of `p`;
`none` embeds the `ValueError` raised when `base` is not a prefix. -/
def relativeTo (p base : Pth) : Option Pth :=
  if base.isPrefixOf p then some (p.drop base.length) else none

/-- Python `dict.get` on an association list. -/
def aget {κ α : Type} [DecidableEq κ] : List (κ × α) → κ → Option α
  | [], _ => none
  | (k, v) :: rest, key => if key = k then some v else aget rest key

/-- Python `d[key] = value`: replace in place (keeping insertion order) or
append at the end. -/
def aset {κ α : Type} [DecidableEq κ] : List (κ × α) → κ → α → List (κ × α)
  | [], key, v => [(key, v)]
  | (k, w) :: rest, key, v => if key = k then (k, v) :: rest else (k, w) :: aset rest key v

/-- Python `del d[key]` (on a dict whose keys are unique): drop the entry. -/
def adel {κ α : Type} [DecidableEq κ] : List (κ × α) → κ → List (κ × α)
  | [], _ => []
  | (k, w) :: rest, key => if key = k then rest else (k, w) :: adel rest key

/-- File content, `str | bytes` in the source. -/
inductive Content where
  | str (s : String)
  | bytes (b : List UInt8)
deriving DecidableEq

/-- A `MemoryFile`: virtual path, basename, content, permission bits and the
deleted flag.  (`CallbackFile` is out of scope: every claim is about
`MemoryFile`-backed filesystems.) -/
structure MFile where
  path : Pth
  name : String
  content : Content
  permissions : Nat
  deleted : Bool
deriving DecidableEq

/-- `MemoryFile.__init__(path, content)` with the default permissions 0o644:
the `name` attribute is initialised from the path. -/
def mkMemoryFile (path : Pth) (content : Content) : MFile :=
  { path := path, name := pathName path, content := content,
    permissions := 0o644, deleted := false }

/-- An entry of the `_tree`: a file, or a directory holding an ordered
mapping from names to entries (`Tree = dict[str, AbstractFile | Tree]`). -/
inductive Entry where
  | file (f : MFile)
  | dir (children : List (String × Entry))

/-- The `_tree` attribute of `OSAccess`: the top-level dict. -/
abbrev Dict := List (String × Entry)

/-- Exceptions raised by `OSAccess`.  The source formats each message from
the paths involved; the embedding keeps the exception class and those paths
and drops the `[Errno N]` message text. -/
inductive OSErr where
  | fileNotFound (paths : List Pth)
  | isADirectory (paths : List Pth)
  | notADirectory (paths : List Pth)
  | fileExists (paths : List Pth)
  | dirNotEmpty (paths : List Pth)
  | unicodeDecodeError
  | keyError (key : String)
  | valueError (paths : List Pth)
  | assertionError
  | typeError
deriving DecidableEq

/-- `OSAccess._get_entry`: split the parts into `*dir_parts, name`, walk the
directory parts (failing with `None` on a missing or non-directory step) and
look up the final name.  The source raises `ValueError` when unpacking empty
parts; that case (`none` here) is unreachable for the non-empty paths used
throughout. -/
def getEntryAux (d : Dict) : List String → Option Entry
  | [] => none
  | [name] => aget d name
  | q :: rest => match aget d q with
      | some (.dir sub) => getEntryAux sub rest
      | _ => none

/-- `OSAccess._get_entry` on the whole tree. -/
def getEntry (tree : Dict) (p : Pth) : Option Entry :=
  getEntryAux tree p

/-- `OSAccess._parent_entry`. -/
def parentEntry (tree : Dict) (p : Pth) : Option Entry :=
  getEntry tree (pathParent p)

/-- `OSAccess._get_entry_exists`: raises `FileNotFoundError` when absent. -/
def getEntryExists (tree : Dict) (p : Pth) : Except OSErr Entry :=
  match getEntry tree p with
  | none => .error (.fileNotFound [p])
  | some e => .ok e

/-- `OSAccess._get_file`: raises `IsADirectoryError` on a directory. -/
def getFile (tree : Dict) (p : Pth) : Except OSErr MFile :=
  match getEntryExists tree p with
  | .error e => .error e
  | .ok (.file f) => .ok f
  | .ok (.dir _) => .error (.isADirectory [p])

/-- `OSAccess._get_dir`: raises `NotADirectoryError` on a file. -/
def getDir (tree : Dict) (p : Pth) : Except OSErr Dict :=
  match getEntryExists tree p with
  | .error e => .error e
  | .ok (.dir d) => .ok d
  | .ok (.file _) => .error (.notADirectory [p])

/-- Functional counterpart of mutating the dict reached by walking the
proper prefix of `parts`: set the entry at path `parts`.  The walk mirrors
`_get_entry`; no-ops on paths whose parent walk fails (unreachable in the
operations below, which check the parent first). -/
def setAt (d : Dict) : List String → Entry → Dict
  | [], _ => d
  | [name], e => aset d name e
  | q :: rest, e => match aget d q with
      | some (.dir sub) => aset d q (.dir (setAt sub rest e))
      | _ => d

/-- Functional counterpart of `del parent[key]` on the dict reached by
walking `dirParts`. -/
def delAt (d : Dict) (dirParts : List String) (key : String) : Dict :=
  match dirParts with
  | [] => adel d key
  | q :: rest => match aget d q with
      | some (.dir sub) => aset d q (.dir (delAt sub rest key))
      | _ => d

/-- `OSAccess.path_exists`. -/
def pathExists (tree : Dict) (p : Pth) : Bool :=
  (getEntry tree p).isSome

/-- `OSAccess.path_is_file` (`_is_file` tests for a file object). -/
def pathIsFile (tree : Dict) (p : Pth) : Bool :=
  match getEntry tree p with
  | some (.file _) => true
  | _ => false

/-- `OSAccess.path_is_dir` (`_is_dir` tests for a dict). -/
def pathIsDir (tree : Dict) (p : Pth) : Bool :=
  match getEntry tree p with
  | some (.dir _) => true
  | _ => false

/-- `OSAccess.path_read_text`: `MemoryFile.read_content` returns the stored
content; bytes content is UTF-8 decoded (`bytes.decode()`), raising on
invalid UTF-8. -/
def pathReadText (tree : Dict) (p : Pth) : Except OSErr String := do
  let f ← getFile tree p
  match f.content with
  | .str s => .ok s
  | .bytes b =>
    match String.fromUTF8? (ByteArray.mk b.toArray) with
    | some s => .ok s
    | none => .error .unicodeDecodeError

/-- `OSAccess.path_read_bytes`: str content is UTF-8 encoded
(`str.encode()`). -/
def pathReadBytes (tree : Dict) (p : Pth) : Except OSErr (List UInt8) := do
  let f ← getFile tree p
  match f.content with
  | .bytes b => .ok b
  | .str s => .ok s.toUTF8.toList

/-- `OSAccess._write_file`: overwrite an existing file's content, refuse a
directory, or create a new `MemoryFile` under an existing parent directory
(raising `FileNotFoundError` otherwise). -/
def writeFile (tree : Dict) (p : Pth) (data : Content) : Except OSErr Dict :=
  match getEntry tree p with
  | some (.file f) => .ok (setAt tree p (.file { f with content := data }))
  | some (.dir _) => .error (.isADirectory [p])
  | none =>
    match parentEntry tree p with
    | some (.dir _) => .ok (setAt tree p (.file (mkMemoryFile p data)))
    | _ => .error (.fileNotFound [p])

/-- `OSAccess.path_write_text`: write, then return `len(data)` — the number
of characters of the string. -/
def pathWriteText (tree : Dict) (p : Pth) (data : String) :
    Except OSErr (Dict × Nat) := do
  let t ← writeFile tree p (.str data)
  .ok (t, data.length)

/-- `OSAccess.path_write_bytes`: write, then return `len(data)` — the number
of bytes. -/
def pathWriteBytes (tree : Dict) (p : Pth) (data : List UInt8) :
    Except OSErr (Dict × Nat) := do
  let t ← writeFile tree p (.bytes data)
  .ok (t, data.length)

/-- The `parents=True` walk of `OSAccess.path_mkdir`: `setdefault` each part
to a fresh dict, descending; a file on the way raises `NotADirectoryError`
(with the original path in the message). -/
def mkdirParents (d : Dict) (orig : Pth) : List String → Except OSErr Dict
  | [] => .ok d
  | q :: rest =>
    match aget d q with
    | some (.dir sub) => do
        let sub' ← mkdirParents sub orig rest
        .ok (aset d q (.dir sub'))
    | some (.file _) => .error (.notADirectory [orig])
    | none => do
        let sub' ← mkdirParents [] orig rest
        .ok (d ++ [(q, .dir sub')])

/-- `OSAccess.path_mkdir`. -/
def pathMkdir (tree : Dict) (p : Pth) (parents existOk : Bool) :
    Except OSErr Dict :=
  match getEntry tree p with
  | some (.file _) => .error (.fileExists [p])
  | some (.dir _) => if existOk then .ok tree else .error (.fileExists [p])
  | none =>
    match parentEntry tree p with
    | some (.dir _) => .ok (setAt tree p (.dir []))
    | some (.file _) => .error (.notADirectory [p])
    | none =>
      if parents then mkdirParents tree p p
      else .error (.fileNotFound [p])

/-- `OSAccess.path_unlink`: fetch the file (raising `FileNotFoundError` or
`IsADirectoryError`), mark it deleted, and `del parent_dir[file.name]` —
note the key is the file object's `name` attribute; a stale name makes the
`del` raise `KeyError`.  A non-directory parent fails the source's
`assert`. -/
def pathUnlink (tree : Dict) (p : Pth) : Except OSErr Dict := do
  let f ← getFile tree p
  match parentEntry tree p with
  | some (.dir pd) =>
      if (aget pd f.name).isSome then .ok (delAt tree (pathParent p) f.name)
      else .error (.keyError f.name)
  | _ => .error .assertionError

/-- `OSAccess.path_rmdir`: refuse a non-empty directory, then delete the
path's final component from the parent dict. -/
def pathRmdir (tree : Dict) (p : Pth) : Except OSErr Dict := do
  let d ← getDir tree p
  match d with
  | _ :: _ => .error (.dirNotEmpty [p])
  | [] =>
    match parentEntry tree p with
    | some (.dir pd) =>
        if (aget pd (pathName p)).isSome then
          .ok (delAt tree (pathParent p) (pathName p))
        else .error (.keyError (pathName p))
    | _ => .error .assertionError

/-- `OSAccess.path_iterdir`: the full path `dir_path / name` for each entry
of the directory's dict, in insertion order. -/
def pathIterdir (tree : Dict) (p : Pth) : Except OSErr (List Pth) := do
  let d ← getDir tree p
  .ok (d.map (fun e => p ++ [e.1]))

/-- `os.stat_result` as a record with the ten fields in declaration order.
Timestamps are floats in the source; they are only ever produced from
`time.time()` (threaded through here as `now`) or passed opaquely, so they
are embedded as `Nat`. -/
structure StatResult where
  st_mode : Nat
  st_ino : Nat
  st_dev : Nat
  st_nlink : Nat
  st_uid : Nat
  st_gid : Nat
  st_size : Nat
  st_atime : Nat
  st_mtime : Nat
  st_ctime : Nat
deriving DecidableEq

/-- The 10-tuple view of a stat record, in field order. -/
def statTuple (st : StatResult) :
    Nat × Nat × Nat × Nat × Nat × Nat × Nat × Nat × Nat × Nat :=
  (st.st_mode, st.st_ino, st.st_dev, st.st_nlink, st.st_uid, st.st_gid,
   st.st_size, st.st_atime, st.st_mtime, st.st_ctime)

/-- Build a stat record from a 10-tuple, positionally. -/
def statOfTuple (t : Nat × Nat × Nat × Nat × Nat × Nat × Nat × Nat × Nat × Nat) :
    StatResult :=
  ⟨t.1, t.2.1, t.2.2.1, t.2.2.2.1, t.2.2.2.2.1, t.2.2.2.2.2.1,
   t.2.2.2.2.2.2.1, t.2.2.2.2.2.2.2.1, t.2.2.2.2.2.2.2.2.1,
   t.2.2.2.2.2.2.2.2.2⟩

/-- `StatResult.file_stat`: when only permission bits are given
(`mode < 0o1000`) the regular-file type bit `0o100000` is or-ed in;
`mtime` defaults to the current time `now`. -/
def fileStat (size mode : Nat) (mtime : Option Nat) (now : Nat) : StatResult :=
  let m := if mode < 0o1000 then mode ||| 0o100000 else mode
  let t := mtime.getD now
  ⟨m, 0, 0, 1, 0, 0, size, t, t, t⟩

/-- `StatResult.dir_stat`: when only permission bits are given the directory
type bit `0o040000` is or-ed in; size is fixed at 4096. -/
def dirStat (mode : Nat) (mtime : Option Nat) (now : Nat) : StatResult :=
  let m := if mode < 0o1000 then mode ||| 0o040000 else mode
  let t := mtime.getD now
  ⟨m, 0, 0, 2, 0, 0, 4096, t, t, t⟩

/-- `len(content)` for bytes, `len(content.encode())` for str: the byte
length used by `path_stat`. -/
def contentByteLen : Content → Nat
  | .bytes b => b.length
  | .str s => s.utf8ByteSize

/-- `OSAccess.path_stat`: `file_stat(size, permissions)` for a file,
`dir_stat()` for a directory, `FileNotFoundError` when absent. -/
def pathStat (tree : Dict) (p : Pth) (now : Nat) : Except OSErr StatResult := do
  let e ← getEntryExists tree p
  match e with
  | .file f => .ok (fileStat (contentByteLen f.content) f.permissions none now)
  | .dir _ => .ok (dirStat 0o755 none now)

/-- `OSAccess._update_paths_recursive`: after a directory rename, rewrite
every contained file's `path` attribute, replacing `oldP` by `newP`
(`relative_to` raises `ValueError` when `oldP` is not a prefix).  The
`name` attribute is not touched. -/
def updatePaths : Dict → Pth → Pth → Except OSErr Dict
  | [], _, _ => .ok []
  | (n, .file f) :: rest, oldP, newP =>
    match relativeTo f.path oldP with
    | some rel => do
        let rest' ← updatePaths rest oldP newP
        .ok ((n, .file { f with path := newP ++ rel }) :: rest')
    | none => .error (.valueError [f.path, oldP])
  | (n, .dir sub) :: rest, oldP, newP => do
      let sub' ← updatePaths sub oldP newP
      let rest' ← updatePaths rest oldP newP
      .ok ((n, .dir sub') :: rest')

/-- `OSAccess.path_rename`.  For a file source, the entry is deleted from
the parent under the file object's `path.name` and re-inserted at the
target; the file object itself (its `path` and `name` attributes included)
is left unchanged.  For a directory source the contained files' paths are
then rewritten by `updatePaths`. -/
def pathRename (tree : Dict) (p tgt : Pth) : Except OSErr Dict :=
  match getEntry tree p with
  | none => .error (.fileNotFound [p, tgt])
  | some srcEntry =>
    match parentEntry tree p with
    | some (.dir parentD) =>
      match parentEntry tree tgt with
      | some (.dir _) =>
        let targetEntry := getEntry tree tgt
        match srcEntry with
        | .file f =>
          match targetEntry with
          | some (.dir _) => .error (.isADirectory [p, tgt])
          | _ =>
            -- an overwritten target file is marked deleted in the source;
            -- its entry is replaced below
            let srcName := pathName f.path
            if (aget parentD srcName).isSome then
              .ok (setAt (delAt tree (pathParent p) srcName) tgt (.file f))
            else .error (.keyError srcName)
        | .dir sub =>
          match targetEntry with
          | some (.file _) => .error (.notADirectory [p, tgt])
          | some (.dir (_ :: _)) =>
            -- the target is a non-empty directory
            .error (.dirNotEmpty [p, tgt])
          | some (.dir []) => do
              let srcName := pathName p
              if (aget parentD srcName).isSome then do
                let sub' ← updatePaths sub p tgt
                .ok (setAt (delAt tree (pathParent p) srcName) tgt (.dir sub'))
              else .error (.keyError srcName)
          | none => do
              let srcName := pathName p
              if (aget parentD srcName).isSome then do
                let sub' ← updatePaths sub p tgt
                .ok (setAt (delAt tree (pathParent p) srcName) tgt (.dir sub'))
              else .error (.keyError srcName)
      | _ => .error (.fileNotFound [p, tgt])
    | _ => .error .assertionError

/-- The `OSAccess.__init__` insertion of one file: walk the directory parts
with `setdefault`, raising `ValueError` when a file blocks the way, then
bind the final name to the file (replacing any previous entry). -/
def insertFileAux (d : Dict) (f : MFile) : List String → Except OSErr Dict
  | [] => .error (.valueError [f.path])
  | [name] => .ok (aset d name (.file f))
  | q :: rest =>
    match aget d q with
    | some (.dir sub) => do
        let sub' ← insertFileAux sub f rest
        .ok (aset d q (.dir sub'))
    | some (.file _) => .error (.valueError [f.path])
    | none => do
        let sub' ← insertFileAux [] f rest
        .ok (d ++ [(q, .dir sub')])

/-- `OSAccess.__init__`: start from `{'/': {}}`, normalise each relative
file path against `root_dir` (updating the file's `path` attribute, not its
`name`), and insert the files in order. -/
def mkOSAccess (files : List MFile) (rootDir : Pth) : Except OSErr Dict :=
  files.foldlM
    (fun tree f =>
      let f' := if pathIsAbsolute f.path then f
                else { f with path := rootDir ++ f.path }
      insertFileAux tree f' f'.path)
    [("/", Entry.dir [])]

/-- The path-attribute invariant: every file reachable in the tree, at key
path `pos ++ [n]`, stores exactly that path in its `path` attribute and `n`
in its `name` attribute. -/
def filesOk : Dict → Pth → Bool
  | [], _ => true
  | (n, .file f) :: rest, pos =>
    decide (f.path = pos ++ [n]) && decide (f.name = n) && filesOk rest pos
  | (n, .dir sub) :: rest, pos => filesOk sub (pos ++ [n]) && filesOk rest pos

/-!
The host loop of `run_monty_async` (`__init__.py`).  One loop iteration
inspects the progress value and resumes it; the embedding captures the
decision each iteration makes as a `HostAction`.
-/

/-- A host-visible return value of an OS or external call. -/
inductive RetVal where
  | none
  | bool (b : Bool)
  | int (n : Nat)
  | str (s : String)
  | bytes (b : List UInt8)
  | paths (l : List Pth)
  | stat (st : StatResult)
deriving DecidableEq

/-- A host-side exception object handed to `resume(exception=...)`. -/
inductive HostExc where
  | notImplementedError (msg : String)
  | keyError (msg : String)
  | osError (e : OSErr)
deriving DecidableEq

/-- The outcome of an awaited external-function task, as built by
`_run_external_function`: `{'return_value': ...}` on success,
`{'exception': ...}` when the coroutine raised. -/
inductive ExtResult where
  | returnValue (v : RetVal)
  | exception (e : HostExc)
deriving DecidableEq

/-- What one iteration of the `run_monty_async` loop does with the paused
progress value. -/
inductive HostAction where
  | resumeReturn (v : RetVal)
  | resumeException (e : HostExc)
  | resumeFuture
  | resumeResults (results : List (Nat × ExtResult))
deriving DecidableEq

/-- The result of invoking one external function synchronously: a plain
return value, a raised exception, or a coroutine (to be awaited). -/
inductive ExtCall where
  | value (v : RetVal)
  | raises (e : HostExc)
  | coroutine
deriving DecidableEq

/-- A `MontySnapshot` as seen by the loop: the paused function name and the
`is_os_function` flag. -/
structure Snap where
  functionName : String
  isOsFunction : Bool
deriving DecidableEq

/-- The message of the `NotImplementedError` built when an OS function is
reached with `os=None`. -/
def osNoneMessage (functionName : String) : String :=
  "OS function " ++ functionName ++ " called but no os handler provided"

/-- The message of the `KeyError` built when a non-OS function name is
absent from `external_functions`. -/
def notFoundMessage (functionName : String) : String :=
  "Function " ++ functionName ++ " not found"

/-- The `MontySnapshot` branch of the `run_monty_async` loop.  `os` is the
optional OS handler (its dispatch abstracted as a function of the
snapshot); `extfns` maps external-function names to the outcome of calling
them.  Mirrors `__init__.py` lines 100-132; a callable stored in the dict
is always truthy, so the `elif ext_function := ...` walrus test is exactly
a key-presence test. -/
def snapshotStep (os : Option (Snap → Except HostExc RetVal))
    (extfns : List (String × ExtCall)) (snap : Snap) : HostAction :=
  if snap.isOsFunction then
    match os with
    | none => .resumeException (.notImplementedError (osNoneMessage snap.functionName))
    | some handler =>
      match handler snap with
      | .error exc => .resumeException exc
      | .ok v => .resumeReturn v
  else
    match aget extfns snap.functionName with
    | some (.value v) => .resumeReturn v
    | some (.raises exc) => .resumeException exc
    | some .coroutine => .resumeFuture
    | none => .resumeException (.keyError (notFoundMessage snap.functionName))

/-- Modelled from the spec: the engine's `resume(exception=err)` (in the
Rust crate, outside the Python sources) raises `err` at the paused call
site, where normal try/except applies.  The exception the script observes
from a host action, if any. -/
def scriptObserves : HostAction → Option HostExc
  | .resumeException e => some e
  | _ => none

/-- The tasks the `MontyFutureSnapshot` branch waits on: for each pending
call id in order, the registered task if there is one.  Each task was
registered as `tasks[call_id] = create_task(_run_external_function(call_id,
coro))`, so a task's eventual `(call_id, result)` pair carries its
registration key; the map therefore stores the outcome directly. -/
def currentTasks (tasks : List (Nat × ExtResult)) (pending : List Nat) :
    List (Nat × ExtResult) :=
  pending.filterMap (fun cid => (aget tasks cid).map (fun r => (cid, r)))

/-- The `results` dict built from the completed tasks:
`results[call_id] = result` for each task in `done`. -/
def buildResults (done : List (Nat × ExtResult)) : List (Nat × ExtResult) :=
  done.foldl (fun acc tr => aset acc tr.1 tr.2) []

/-- The `MontyFutureSnapshot` branch of the loop: resume with the map built
from the completed tasks.  (`asyncio.wait(..., FIRST_COMPLETED)` is the
standard library: it is modelled by quantifying over the completed subset
`done`, constrained in the theorems to a non-empty subset of the waited-on
tasks.) -/
def futureStep (done : List (Nat × ExtResult)) : HostAction :=
  .resumeResults (buildResults done)

/-- The `Path.mkdir` arm of `AbstractOS.__call__`: assert at most two
keyword arguments, read `parents` and `exist_ok` with default `False`
(`kwargs.get`), and unpack `*args` into the single path parameter (a
mismatch is a Python `TypeError`).  `path_mkdir` returns `None` on
success, so the dispatched value is `RetVal.none`. -/
def osCallMkdir (tree : Dict) (args : List Pth)
    (kwargs : List (String × Bool)) : Except OSErr (RetVal × Dict) :=
  if kwargs.length ≤ 2 then
    let parents := (aget kwargs "parents").getD false
    let existOk := (aget kwargs "exist_ok").getD false
    match args with
    | [p] => do
        let t ← pathMkdir tree p parents existOk
        .ok (.none, t)
    | _ => .error .typeError
  else .error .assertionError

/-- A kwargs dict drawing only on the keys `parents` and `exist_ok`, each
optional. -/
def kwargsOf (op oe : Option Bool) : List (String × Bool) :=
  (match op with | some b => [("parents", b)] | none => []) ++
  (match oe with | some b => [("exist_ok", b)] | none => [])

/-- Python dicts cannot hold a key twice; this well-formedness predicate
(key uniqueness at every level of the tree) holds of every tree `OSAccess`
builds. -/
def nodupKeys : Dict → Bool
  | [] => true
  | (k, .file _) :: rest => (aget rest k).isNone && nodupKeys rest
  | (k, .dir sub) :: rest => (aget rest k).isNone && nodupKeys sub && nodupKeys rest

/-! Concrete filesystems used to exhibit counterexamples and witnesses. -/

/-- The file `MemoryFile('/old.txt', 'x')`. -/
def c8File : MFile := mkMemoryFile ["/", "old.txt"] (.str "x")

/-- The tree of `OSAccess([MemoryFile('/old.txt', 'x')])`. -/
def c8Tree : Dict := [("/", .dir [("old.txt", .file c8File)])]

/-- The tree after `path_rename('/old.txt', '/new.txt')`: the entry moved,
but the file object still carries the old `path` and `name`. -/
def c8TreeAfter : Dict := [("/", .dir [("new.txt", .file c8File)])]

/-- The file `MemoryFile('/a.txt', 'abc')`. -/
def demoFile : MFile := mkMemoryFile ["/", "a.txt"] (.str "abc")

/-- The tree of `OSAccess([MemoryFile('/a.txt', 'abc')])`. -/
def demoTree : Dict := [("/", .dir [("a.txt", .file demoFile)])]

/-- `demoTree` after `path_write_text('/b.txt', 'hi')`. -/
def demoTreeB : Dict :=
  [("/", .dir [("a.txt", .file demoFile),
               ("b.txt", .file (mkMemoryFile ["/", "b.txt"] (.str "hi")))])]

/-! Helper lemmas about the association-list dictionary operations and
the tree walks. -/

theorem aget_aset_self {κ α : Type} [DecidableEq κ] (l : List (κ × α)) (k : κ) (v : α) :
    aget (aset l k v) k = some v := by
  induction l with
  | nil => simp [aset, aget]
  | cons hd rest ih =>
    obtain ⟨k', w⟩ := hd
    by_cases h : k = k' <;> simp [aset, aget, h, ih]

theorem aset_ne_nil {κ α : Type} [DecidableEq κ] (l : List (κ × α)) (k : κ) (v : α) :
    aset l k v ≠ [] := by
  cases l with
  | nil => simp [aset]
  | cons hd rest =>
    obtain ⟨k', w⟩ := hd
    by_cases h : k = k' <;> simp [aset, h]

theorem mem_keys_aset {κ α : Type} [DecidableEq κ] (l : List (κ × α)) (k : κ) (v : α) (x : κ) :
    x ∈ (aset l k v).map Prod.fst ↔ x = k ∨ x ∈ l.map Prod.fst := by
  induction l with
  | nil => simp [aset]
  | cons hd rest ih =>
    obtain ⟨k', w⟩ := hd
    by_cases h : k = k'
    · subst h; simp [aset]
    · simp [aset, h, ih]; tauto

theorem aget_adel_self_of_nodup (l : Dict) (k : String)
    (h : nodupKeys l = true) : aget (adel l k) k = none := by
  induction l with
  | nil => simp [adel, aget]
  | cons hd rest ih =>
    obtain ⟨k', e⟩ := hd
    have hnone : (aget rest k').isNone = true ∧ nodupKeys rest = true := by
      cases e <;> simp only [nodupKeys, Bool.and_eq_true] at h <;> tauto
    by_cases hk : k = k'
    · subst hk
      simpa [adel, Option.isNone_iff_eq_none] using hnone.1
    · simp [adel, aget, hk, ih hnone.2]

theorem nodup_aget (l : Dict) (k : String) (sub : Dict)
    (h : nodupKeys l = true) (hget : aget l k = some (.dir sub)) :
    nodupKeys sub = true := by
  induction l with
  | nil => simp [aget] at hget
  | cons hd rest ih =>
    obtain ⟨k', e⟩ := hd
    by_cases hk : k = k'
    · subst hk
      simp only [aget, if_pos, Option.some.injEq] at hget
      subst hget
      simp only [nodupKeys, Bool.and_eq_true] at h
      exact h.1.2
    · simp only [aget, if_neg hk] at hget
      have hrest : nodupKeys rest = true := by
        cases e <;> simp only [nodupKeys, Bool.and_eq_true] at h <;> tauto
      exact ih hrest hget

theorem nodup_walk (q : List String) :
    ∀ (d pd : Dict), nodupKeys d = true →
    getEntryAux d q = some (.dir pd) → nodupKeys pd = true := by
  induction q with
  | nil => intro d pd _ h; simp [getEntryAux] at h
  | cons a rest ih =>
    intro d pd hnd h
    cases rest with
    | nil =>
      simp only [getEntryAux] at h
      exact nodup_aget d a pd hnd h
    | cons b t =>
      simp only [getEntryAux] at h
      cases hget : aget d a with
      | none => rw [hget] at h; simp at h
      | some e =>
        rw [hget] at h
        cases e with
        | file f => simp at h
        | dir sub =>
          exact ih sub pd (nodup_aget d a sub hnd hget) h

/-- Walking to an entry at `q ++ [last]` passes through a directory at `q`
holding the entry under `last`. -/
theorem getEntryAux_concat (q : List String) :
    ∀ (last : String) (d : Dict) (e : Entry), q ≠ [] →
    getEntryAux d (q ++ [last]) = some e →
    ∃ pd, getEntryAux d q = some (.dir pd) ∧ aget pd last = some e := by
  induction q with
  | nil => intro last d e hq; exact absurd rfl hq
  | cons a rest ih =>
    intro last d e _ h
    cases rest with
    | nil =>
      simp only [List.nil_append, List.cons_append, getEntryAux] at h ⊢
      cases hget : aget d a with
      | none => rw [hget] at h; simp at h
      | some ent =>
        rw [hget] at h
        cases ent with
        | file f => simp at h
        | dir sub => exact ⟨sub, rfl, by simpa [getEntryAux] using h⟩
    | cons b t =>
      simp only [List.cons_append, getEntryAux] at h ⊢
      cases hget : aget d a with
      | none => rw [hget] at h; simp at h
      | some ent =>
        rw [hget] at h
        cases ent with
        | file f => simp at h
        | dir sub =>
          obtain ⟨pd, h1, h2⟩ := ih last sub e (by simp) h
          exact ⟨pd, h1, h2⟩

/-- Setting the entry at `q ++ [last]` below the directory reached at `q`
makes it visible at that path. -/
theorem getEntryAux_setAt_concat (q : List String) :
    ∀ (last : String) (d pd : Dict) (e : Entry), q ≠ [] →
    getEntryAux d q = some (.dir pd) →
    getEntryAux (setAt d (q ++ [last]) e) (q ++ [last]) = some e := by
  induction q with
  | nil => intro last d pd e hq; exact absurd rfl hq
  | cons a rest ih =>
    intro last d pd e _ h
    cases rest with
    | nil =>
      simp only [getEntryAux] at h
      simp only [List.nil_append, List.cons_append, setAt, h]
      simp [getEntryAux, aget_aset_self, aget, aset]
    | cons b t =>
      simp only [getEntryAux] at h
      cases hget : aget d a with
      | none => rw [hget] at h; simp at h
      | some ent =>
        rw [hget] at h
        cases ent with
        | file f => simp at h
        | dir sub =>
          simp only [List.cons_append, setAt, hget]
          simp only [getEntryAux, aget_aset_self]
          exact ih last sub pd e (by simp) h

/-- Deleting key `k` in the directory reached at `q` removes the entry at
`q ++ [k]` (given unique keys in that directory). -/
theorem getEntryAux_delAt_concat (q : List String) :
    ∀ (k : String) (d pd : Dict),
    getEntryAux d q = some (.dir pd) →
    getEntryAux (delAt d q k) (q ++ [k]) = aget (adel pd k) k := by
  induction q with
  | nil => intro k d pd h; simp [getEntryAux] at h
  | cons a rest ih =>
    intro k d pd h
    cases rest with
    | nil =>
      simp only [getEntryAux] at h
      simp only [List.nil_append, List.cons_append, delAt, h]
      simp [getEntryAux, aget_aset_self]
    | cons b t =>
      simp only [getEntryAux] at h
      cases hget : aget d a with
      | none => rw [hget] at h; simp at h
      | some ent =>
        rw [hget] at h
        cases ent with
        | file f => simp at h
        | dir sub =>
          simp only [List.cons_append, delAt, hget]
          simp only [getEntryAux, aget_aset_self]
          exact ih k sub pd h

theorem mem_keys_foldl_aset (done : List (Nat × ExtResult)) :
    ∀ (acc : List (Nat × ExtResult)) (x : Nat),
    x ∈ (done.foldl (fun acc tr => aset acc tr.1 tr.2) acc).map Prod.fst ↔
      x ∈ acc.map Prod.fst ∨ x ∈ done.map Prod.fst := by
  induction done with
  | nil => simp
  | cons d rest ih =>
    intro acc x
    simp only [List.foldl_cons, List.map_cons, List.mem_cons]
    rw [ih]
    rw [mem_keys_aset]
    tauto

theorem mem_keys_buildResults (done : List (Nat × ExtResult)) (x : Nat) :
    x ∈ (buildResults done).map Prod.fst ↔ x ∈ done.map Prod.fst := by
  unfold buildResults
  rw [mem_keys_foldl_aset]
  simp

theorem foldl_aset_ne_nil (done : List (Nat × ExtResult)) :
    ∀ (acc : List (Nat × ExtResult)), acc ≠ [] →
    done.foldl (fun acc tr => aset acc tr.1 tr.2) acc ≠ [] := by
  induction done with
  | nil => intro acc h; simpa using h
  | cons d rest ih =>
    intro acc _
    simp only [List.foldl_cons]
    exact ih _ (aset_ne_nil acc d.1 d.2)

theorem buildResults_ne_nil (done : List (Nat × ExtResult)) (h : done ≠ []) :
    buildResults done ≠ [] := by
  cases done with
  | nil => exact absurd rfl h
  | cons d rest =>
    unfold buildResults
    simp only [List.foldl_cons]
    exact foldl_aset_ne_nil rest _ (aset_ne_nil [] d.1 d.2)

theorem mem_keys_currentTasks (tasks : List (Nat × ExtResult))
    (pending : List Nat) (x : Nat)
    (h : x ∈ (currentTasks tasks pending).map Prod.fst) : x ∈ pending := by
  unfold currentTasks at h
  simp only [List.map_filterMap, List.mem_filterMap] at h
  obtain ⟨cid, hmem, heq⟩ := h
  cases hget : aget tasks cid with
  | none => rw [hget] at heq; simp at heq
  | some r =>
    rw [hget] at heq
    simp only [Option.map_some, Option.map, Option.some.injEq] at heq
    subst heq
    exact hmem

/-- `_write_file` into a slot (absent, or holding a file) under an existing
parent directory succeeds and places a file holding the written content. -/
theorem pathParent_concat (q : List String) (last : String) (hq : q ≠ []) :
    pathParent (q ++ [last]) = q := by
  unfold pathParent
  have hlen : ¬ (q ++ [last]).length ≤ 1 := by
    cases q with
    | nil => exact absurd rfl hq
    | cons a t => simp
  rw [if_neg hlen, List.dropLast_concat]

theorem writeFile_ok (tree : Dict) (q : List String) (last : String)
    (pd : Dict) (data : Content) (hq : q ≠ [])
    (hpd : getEntry tree q = some (.dir pd))
    (hslot : getEntry tree (q ++ [last]) = none ∨
      ∃ f, getEntry tree (q ++ [last]) = some (.file f)) :
    ∃ f', writeFile tree (q ++ [last]) data =
            .ok (setAt tree (q ++ [last]) (.file f')) ∧
          f'.content = data := by
  have hparent : pathParent (q ++ [last]) = q := pathParent_concat q last hq
  rcases hslot with hnone | ⟨f, hfile⟩
  · refine ⟨mkMemoryFile (q ++ [last]) data, ?_, rfl⟩
    unfold writeFile parentEntry
    rw [hnone, hparent, hpd]
  · refine ⟨{ f with content := data }, ?_, rfl⟩
    unfold writeFile
    rw [hfile]

/-- Reading back the file just placed at `q ++ [last]`. -/
theorem getFile_setAt (tree : Dict) (q : List String) (last : String)
    (pd : Dict) (f' : MFile) (hq : q ≠ [])
    (hpd : getEntry tree q = some (.dir pd)) :
    getFile (setAt tree (q ++ [last]) (.file f')) (q ++ [last]) = .ok f' := by
  have h := getEntryAux_setAt_concat q last tree pd (.file f') hq hpd
  unfold getFile getEntryExists getEntry
  rw [h]

/-! The claims. -/

/-- Claim C1, as amended: `path_write_bytes` returns the byte-count of the
written data, but `path_write_text` returns `len(data)` — the number of
characters (code points) of the text, which for non-ASCII text is smaller
than the length of its UTF-8 encoding. -/
theorem path_write_returns_length :
    (∀ (tree : Dict) (p : Pth) (s : String) (t : Dict) (n : Nat),
       pathWriteText tree p s = .ok (t, n) → n = s.length) ∧
    (∀ (tree : Dict) (p : Pth) (b : List UInt8) (t : Dict) (n : Nat),
       pathWriteBytes tree p b = .ok (t, n) → n = b.length) := by
  constructor
  · intro tree p s t n h
    unfold pathWriteText at h
    cases hw : writeFile tree p (.str s) with
    | error e => rw [hw] at h; simp [Bind.bind, Except.bind] at h
    | ok t' =>
      rw [hw] at h
      simp only [Bind.bind, Except.bind, Except.ok.injEq, Prod.mk.injEq] at h
      exact h.2.symm
  · intro tree p b t n h
    unfold pathWriteBytes at h
    cases hw : writeFile tree p (.bytes b) with
    | error e => rw [hw] at h; simp [Bind.bind, Except.bind] at h
    | ok t' =>
      rw [hw] at h
      simp only [Bind.bind, Except.bind, Except.ok.injEq, Prod.mk.injEq] at h
      exact h.2.symm

/-- Claim C1, witness: writing the two-character text `hi` into `demoTree`
returns 2. -/
theorem path_write_returns_length_witness : (2 : Nat) = "hi".length :=
  path_write_returns_length.1 demoTree ["/", "b.txt"] "hi" demoTreeB 2 rfl

/-- The `demoTree`-like filesystem after writing the one-character,
two-byte text (e with acute accent) to `/f.txt`. -/
def c1TreeAfter : Dict :=
  [("/", .dir [("f.txt", .file (mkMemoryFile ["/", "f.txt"] (.str "é")))])]

/-- Claim C1, counterexample: `path_write_text` of the one-character text
`é` returns 1, while its UTF-8 encoding has 2 bytes; the claimed byte-count
result is wrong for non-ASCII text. -/
theorem path_write_text_byte_count_counterexample :
    pathWriteText [("/", Entry.dir [])] ["/", "f.txt"] "é" =
      .ok (c1TreeAfter, 1) ∧
    "é".utf8ByteSize = 2 ∧ (1 : Nat) ≠ 2 :=
  ⟨rfl, rfl, by decide⟩

/-- Claim C2, as amended: an OS-call snapshot reached under
`run_monty_async` with `os=None` is resumed with a `NotImplementedError`,
which the script observes at the call site; its message is
`OS function <name> called but no os handler provided` (the spec's quoted
message belongs to the engine's direct `run()` path, not to
`run_monty_async`). -/
theorem os_none_not_implemented (fname : String)
    (extfns : List (String × ExtCall)) :
    snapshotStep none extfns ⟨fname, true⟩ =
      .resumeException (.notImplementedError (osNoneMessage fname)) ∧
    scriptObserves (snapshotStep none extfns ⟨fname, true⟩) =
      some (.notImplementedError (osNoneMessage fname)) :=
  ⟨rfl, rfl⟩

/-- Claim C2, counterexample: for `Path.exists` under `run_monty_async`
with no OS handler the exception message is `OS function Path.exists
called but no os handler provided`, not the claimed
`OS function 'Path.exists' not implemented`. -/
theorem os_none_message_counterexample :
    scriptObserves (snapshotStep none [] ⟨"Path.exists", true⟩) =
      some (.notImplementedError
        "OS function Path.exists called but no os handler provided") ∧
    "OS function Path.exists called but no os handler provided" ≠
      "OS function \x27Path.exists\x27 not implemented" :=
  ⟨rfl, by decide⟩

/-- Claim C10: a non-OS snapshot whose function name is not a key of
`external_functions` is resumed (not raised in the host) with
`KeyError('Function <name> not found')`, which the script observes at the
call site. -/
theorem unknown_function_keyerror
    (os : Option (Snap → Except HostExc RetVal))
    (extfns : List (String × ExtCall)) (fname : String)
    (h : aget extfns fname = none) :
    snapshotStep os extfns ⟨fname, false⟩ =
      .resumeException (.keyError (notFoundMessage fname)) ∧
    scriptObserves (snapshotStep os extfns ⟨fname, false⟩) =
      some (.keyError (notFoundMessage fname)) := by
  unfold snapshotStep
  simp [h, scriptObserves]

/-- Claim C10, witness: calling the unregistered function `g` when only
`f` is registered. -/
theorem unknown_function_keyerror_witness :
    snapshotStep none [("f", ExtCall.coroutine)] ⟨"g", false⟩ =
      .resumeException (.keyError (notFoundMessage "g")) ∧
    scriptObserves (snapshotStep none [("f", ExtCall.coroutine)] ⟨"g", false⟩) =
      some (.keyError (notFoundMessage "g")) :=
  unknown_function_keyerror none [("f", ExtCall.coroutine)] "g" rfl

/-- Claim C3: for a `MontyFutureSnapshot` the loop waits on the tasks
registered for the pending call ids, and resumes with the map built from
the completed subset `done` (any non-empty subset of the waited-on tasks,
per `FIRST_COMPLETED`): its key set is exactly the completed ids, is
non-empty, and is a subset of `pending_call_ids`; uncompleted ids stay
pending. -/
theorem future_snapshot_results (tasks : List (Nat × ExtResult))
    (pending : List Nat) (done : List (Nat × ExtResult))
    (hsub : done.Sublist (currentTasks tasks pending)) (hne : done ≠ []) :
    futureStep done = .resumeResults (buildResults done) ∧
    (buildResults done).map Prod.fst ≠ [] ∧
    (∀ x, x ∈ (buildResults done).map Prod.fst ↔ x ∈ done.map Prod.fst) ∧
    (∀ x ∈ (buildResults done).map Prod.fst, x ∈ pending) := by
  refine ⟨rfl, ?_, fun x => mem_keys_buildResults done x, ?_⟩
  · intro hnil
    exact buildResults_ne_nil done hne (List.map_eq_nil_iff.mp hnil)
  · intro x hx
    have hd : x ∈ done.map Prod.fst := (mem_keys_buildResults done x).mp hx
    obtain ⟨pr, hpr, rfl⟩ := List.mem_map.mp hd
    have hcur : pr ∈ currentTasks tasks pending := hsub.subset hpr
    exact mem_keys_currentTasks tasks pending pr.1
      (List.mem_map.mpr ⟨pr, hcur, rfl⟩)

/-- Claim C3, witness: one pending id with a registered completed task. -/
theorem future_snapshot_results_witness :
    futureStep [((1 : Nat), ExtResult.returnValue .none)] =
      .resumeResults (buildResults [(1, ExtResult.returnValue .none)]) ∧
    (buildResults [((1 : Nat), ExtResult.returnValue .none)]).map Prod.fst ≠ [] ∧
    (∀ x, x ∈ (buildResults [((1 : Nat), ExtResult.returnValue .none)]).map Prod.fst ↔
      x ∈ [((1 : Nat), ExtResult.returnValue .none)].map Prod.fst) ∧
    (∀ x ∈ (buildResults [((1 : Nat), ExtResult.returnValue .none)]).map Prod.fst,
      x ∈ [1]) :=
  future_snapshot_results [(1, .returnValue .none)] [1]
    [(1, .returnValue .none)] (List.Sublist.refl _) (by decide)

/-- Claim C4: `path_stat` on an existing path returns `file_stat(size,
permissions)` for a file and `dir_stat()` for a directory; with only
permission bits supplied, `file_stat` sets the regular-file bit `0o100000`
and `dir_stat` the directory bit `0o040000`; and a stat record carries
exactly the ten named fields `st_mode ... st_ctime` in tuple order. -/
theorem path_stat_spec :
    (∀ (tree : Dict) (p : Pth) (now : Nat) (f : MFile),
       getEntry tree p = some (.file f) →
       pathStat tree p now =
         .ok (fileStat (contentByteLen f.content) f.permissions none now)) ∧
    (∀ (tree : Dict) (p : Pth) (now : Nat) (cs : Dict),
       getEntry tree p = some (.dir cs) →
       pathStat tree p now = .ok (dirStat 0o755 none now)) ∧
    (∀ size mode mt now, mode < 0o1000 →
       (fileStat size mode mt now).st_mode = mode ||| 0o100000) ∧
    (∀ mode mt now, mode < 0o1000 →
       (dirStat mode mt now).st_mode = mode ||| 0o040000) ∧
    (∀ t, statTuple (statOfTuple t) = t) ∧
    (∀ st, statOfTuple (statTuple st) = st) := by
  refine ⟨?_, ?_, ?_, ?_, ?_, ?_⟩
  · intro tree p now f h
    unfold pathStat getEntryExists
    rw [h]
    rfl
  · intro tree p now cs h
    unfold pathStat getEntryExists
    rw [h]
    rfl
  · intro size mode mt now h
    simp [fileStat, h]
  · intro mode mt now h
    simp [dirStat, h]
  · intro t
    obtain ⟨a, b, c, d, e, f, g, h, i, j⟩ := t
    rfl
  · intro st
    rfl

/-- Claim C4, witness: stat of the file `/a.txt` (3 bytes, mode 0o644) and
of the directory `/` in `demoTree`. -/
theorem path_stat_spec_witness :
    pathStat demoTree ["/", "a.txt"] 7 =
      .ok (fileStat (contentByteLen demoFile.content) demoFile.permissions none 7) ∧
    pathStat demoTree ["/"] 7 = .ok (dirStat 0o755 none 7) ∧
    (fileStat 3 0o644 none 7).st_mode = 0o644 ||| 0o100000 ∧
    (dirStat 0o755 none 7).st_mode = 0o755 ||| 0o040000 :=
  ⟨path_stat_spec.1 demoTree ["/", "a.txt"] 7 demoFile rfl,
   path_stat_spec.2.1 demoTree ["/"] 7 [("a.txt", .file demoFile)] rfl,
   path_stat_spec.2.2.1 3 0o644 none 7 (by decide),
   path_stat_spec.2.2.2.1 0o755 none 7 (by decide)⟩

/-- Claim C7: `path_iterdir` of a directory returns, one element per
directory entry and in the dict's insertion order, the full path obtained
by joining the directory path with the entry name. -/
theorem path_iterdir_entries (tree : Dict) (p : Pth) (cs : Dict)
    (h : getEntry tree p = some (.dir cs)) :
    pathIterdir tree p = .ok (cs.map (fun e => p ++ [e.1])) ∧
    (cs.map (fun e => p ++ [e.1])).length = cs.length := by
  constructor
  · unfold pathIterdir getDir getEntryExists
    rw [h]
    rfl
  · simp

/-- Claim C7, witness: listing the root of `demoTree`. -/
theorem path_iterdir_entries_witness :
    pathIterdir demoTree ["/"] =
      .ok ([("a.txt", Entry.file demoFile)].map (fun e => ["/"] ++ [e.1])) ∧
    ([("a.txt", Entry.file demoFile)].map (fun e => ["/"] ++ [e.1])).length =
      [("a.txt", Entry.file demoFile)].length :=
  path_iterdir_entries demoTree ["/"] [("a.txt", .file demoFile)] rfl

/-- Claim C5: `path_unlink` on a directory raises `IsADirectoryError`
(never `PermissionError`; and as an `Except.error` it leaves the tree
unchanged), while on a regular file (whose `name` attribute matches its
tree key, as in every `OSAccess`-built tree) it returns successfully with
the file removed. -/
theorem path_unlink_spec :
    (∀ (tree : Dict) (p : Pth) (cs : Dict),
       getEntry tree p = some (.dir cs) →
       pathUnlink tree p = .error (.isADirectory [p])) ∧
    (∀ (tree : Dict) (q : List String) (last : String) (f : MFile),
       nodupKeys tree = true → q ≠ [] →
       getEntry tree (q ++ [last]) = some (.file f) → f.name = last →
       pathUnlink tree (q ++ [last]) = .ok (delAt tree q f.name) ∧
       getEntry (delAt tree q f.name) (q ++ [last]) = none) := by
  constructor
  · intro tree p cs h
    unfold pathUnlink getFile getEntryExists
    rw [h]
    rfl
  · intro tree q last f hnd hq hfile hname
    obtain ⟨pd, hpd, hmem⟩ := getEntryAux_concat q last tree (.file f) hq hfile
    have hparent : pathParent (q ++ [last]) = q := pathParent_concat q last hq
    have hdel := getEntryAux_delAt_concat q f.name tree pd hpd
    have hpdnd : nodupKeys pd = true := nodup_walk q tree pd hnd hpd
    have hgf : getFile tree (q ++ [last]) = .ok f := by
      unfold getFile getEntryExists
      rw [hfile]
    constructor
    · unfold pathUnlink
      rw [hgf]
      show Except.bind (Except.ok f) _ = _
      simp only [Except.bind]
      unfold parentEntry
      rw [hparent]
      unfold getEntry
      rw [hpd, hname]
      simp [hmem]
    · unfold getEntry
      rw [hname] at hdel ⊢
      rw [hdel]
      exact aget_adel_self_of_nodup pd last hpdnd

/-- Claim C5, witness: unlinking the directory `/` of `demoTree` raises
`IsADirectoryError`; unlinking the file `/a.txt` removes it. -/
theorem path_unlink_spec_witness :
    pathUnlink demoTree ["/"] = .error (.isADirectory [["/"]]) ∧
    pathUnlink demoTree (["/"] ++ ["a.txt"]) =
      .ok (delAt demoTree ["/"] demoFile.name) ∧
    getEntry (delAt demoTree ["/"] demoFile.name) (["/"] ++ ["a.txt"]) = none :=
  ⟨path_unlink_spec.1 demoTree ["/"] [("a.txt", .file demoFile)] rfl,
   (path_unlink_spec.2 demoTree ["/"] "a.txt" demoFile
      (by simp [nodupKeys, demoTree, demoFile, mkMemoryFile, aget])
      (by decide) rfl rfl).1,
   (path_unlink_spec.2 demoTree ["/"] "a.txt" demoFile
      (by simp [nodupKeys, demoTree, demoFile, mkMemoryFile, aget])
      (by decide) rfl rfl).2⟩

/-- Claim C6: dispatching `Path.mkdir` through `AbstractOS.__call__` reads
exactly the keyword arguments `parents` and `exist_ok` (each defaulting to
`False`), forwards the single positional path, yields `None` as the call's
value on success, and for an existing directory with `exist_ok=True`
returns `None` with the tree unchanged. -/
theorem mkdir_dispatch (tree : Dict) (p : Pth) (op oe : Option Bool) :
    osCallMkdir tree [p] (kwargsOf op oe) =
      (pathMkdir tree p (op.getD false) (oe.getD false)).map
        (fun t => (RetVal.none, t)) ∧
    (∀ r t, osCallMkdir tree [p] (kwargsOf op oe) = .ok (r, t) →
       r = RetVal.none) ∧
    (∀ cs, getEntry tree p = some (.dir cs) →
       osCallMkdir tree [p] (kwargsOf op (some true)) =
         .ok (RetVal.none, tree)) := by
  have hmain : ∀ (op' oe' : Option Bool),
      osCallMkdir tree [p] (kwargsOf op' oe') =
        (pathMkdir tree p (op'.getD false) (oe'.getD false)).map
          (fun t => (RetVal.none, t)) := by
    intro op' oe'
    cases op' with
    | none => cases oe' with
      | none =>
        cases hm : pathMkdir tree p false false <;>
          simp [osCallMkdir, kwargsOf, aget, Except.map, hm, Bind.bind, Except.bind]
      | some b =>
        cases hm : pathMkdir tree p false b <;>
          simp [osCallMkdir, kwargsOf, aget, Except.map, hm, Bind.bind, Except.bind]
    | some a => cases oe' with
      | none =>
        cases hm : pathMkdir tree p a false <;>
          simp [osCallMkdir, kwargsOf, aget, Except.map, hm, Bind.bind, Except.bind]
      | some b =>
        cases hm : pathMkdir tree p a b <;>
          simp [osCallMkdir, kwargsOf, aget, Except.map, hm, Bind.bind, Except.bind]
  refine ⟨hmain op oe, ?_, ?_⟩
  · intro r t h
    rw [hmain op oe] at h
    cases hm : pathMkdir tree p (op.getD false) (oe.getD false) with
    | error e => rw [hm] at h; simp [Except.map] at h
    | ok t' =>
      rw [hm] at h
      simp only [Except.map, Except.ok.injEq, Prod.mk.injEq] at h
      exact h.1.symm
  · intro cs hdir
    rw [hmain op (some true)]
    unfold pathMkdir
    rw [hdir]
    rfl

/-- Claim C6, witness: `Path.mkdir` on the existing directory `/` of
`demoTree` with `exist_ok=True` returns `None` and leaves the tree
unchanged. -/
theorem mkdir_dispatch_witness :
    osCallMkdir demoTree [["/"]] (kwargsOf none (some true)) =
      .ok (RetVal.none, demoTree) :=
  (mkdir_dispatch demoTree ["/"] none none).2.2 [("a.txt", .file demoFile)] rfl

/-- Claim C9: in a `MemoryFile`-backed tree, writing text or bytes at an
absolute path whose parent is a directory and whose own slot is absent or a
file succeeds, and reading the same path back returns exactly the written
data. -/
theorem write_read_roundtrip :
    (∀ (tree : Dict) (q : List String) (last : String) (pd : Dict) (s : String),
       q ≠ [] → getEntry tree q = some (.dir pd) →
       (getEntry tree (q ++ [last]) = none ∨
         ∃ f, getEntry tree (q ++ [last]) = some (.file f)) →
       ∃ t n, pathWriteText tree (q ++ [last]) s = .ok (t, n) ∧
              pathReadText t (q ++ [last]) = .ok s) ∧
    (∀ (tree : Dict) (q : List String) (last : String) (pd : Dict)
       (b : List UInt8),
       q ≠ [] → getEntry tree q = some (.dir pd) →
       (getEntry tree (q ++ [last]) = none ∨
         ∃ f, getEntry tree (q ++ [last]) = some (.file f)) →
       ∃ t n, pathWriteBytes tree (q ++ [last]) b = .ok (t, n) ∧
              pathReadBytes t (q ++ [last]) = .ok b) := by
  constructor
  · intro tree q last pd s hq hpd hslot
    obtain ⟨f', hw, hc⟩ := writeFile_ok tree q last pd (.str s) hq hpd hslot
    refine ⟨setAt tree (q ++ [last]) (.file f'), s.length, ?_, ?_⟩
    · unfold pathWriteText
      rw [hw]
      rfl
    · unfold pathReadText
      rw [getFile_setAt tree q last pd f' hq hpd]
      show Except.bind (Except.ok f') _ = _
      simp only [Except.bind]
      rw [hc]
  · intro tree q last pd b hq hpd hslot
    obtain ⟨f', hw, hc⟩ := writeFile_ok tree q last pd (.bytes b) hq hpd hslot
    refine ⟨setAt tree (q ++ [last]) (.file f'), b.length, ?_, ?_⟩
    · unfold pathWriteBytes
      rw [hw]
      rfl
    · unfold pathReadBytes
      rw [getFile_setAt tree q last pd f' hq hpd]
      show Except.bind (Except.ok f') _ = _
      simp only [Except.bind]
      rw [hc]

/-- Claim C9, witness: writing `hi` to the fresh slot `/b.txt` of
`demoTree` and reading it back, and likewise one byte to `/c.bin`. -/
theorem write_read_roundtrip_witness :
    (∃ t n, pathWriteText demoTree (["/"] ++ ["b.txt"]) "hi" = .ok (t, n) ∧
            pathReadText t (["/"] ++ ["b.txt"]) = .ok "hi") ∧
    (∃ t n, pathWriteBytes demoTree (["/"] ++ ["c.bin"]) [7] = .ok (t, n) ∧
            pathReadBytes t (["/"] ++ ["c.bin"]) = .ok [7]) :=
  ⟨write_read_roundtrip.1 demoTree ["/"] "b.txt" [("a.txt", .file demoFile)]
     "hi" (by decide) rfl (Or.inl rfl),
   write_read_roundtrip.2 demoTree ["/"] "c.bin" [("a.txt", .file demoFile)]
     [7] (by decide) rfl (Or.inl rfl)⟩

/-- Claim C8 fails on the code: renaming the regular file `/old.txt` to
`/new.txt` in the `OSAccess` filesystem built from
`MemoryFile('/old.txt', 'x')` moves the tree entry but leaves the file
object's `path` (and `name`) attributes at their old values, so the
path-attribute invariant is broken — and the subsequent
`path_unlink('/new.txt')` crashes with `KeyError('old.txt')` instead of
removing the file. -/
theorem rename_file_breaks_path_invariant :
    mkOSAccess [c8File] ["/"] = .ok c8Tree ∧
    pathRename c8Tree ["/", "old.txt"] ["/", "new.txt"] = .ok c8TreeAfter ∧
    getEntry c8TreeAfter ["/", "new.txt"] = some (.file c8File) ∧
    c8File.path = ["/", "old.txt"] ∧ c8File.name = "old.txt" ∧
    filesOk c8TreeAfter [] = false ∧
    pathUnlink c8TreeAfter ["/", "new.txt"] = .error (.keyError "old.txt") := by
  refine ⟨rfl, rfl, rfl, rfl, rfl, ?_, rfl⟩
  simp [filesOk, c8TreeAfter, c8File, mkMemoryFile, pathName]

end Monty
